import Mathlib

/-!
# Verification of the Part-label layout engine (`src/partslabel.py`)

Shallow embedding of the label-generation engine: Python strings become
`List Char`, fallible lookups become `Option`, the mutable `elements`
list and `label_count` counter of the generator loops become explicit
recursion, and the pandas `DataFrame` becomes a structure of column
names and rows.  Each definition mirrors one function or code block of
`partslabel.py`; spec-side reformulations are named `...Spec`.
-/

namespace PartsLabel

/-- Python strings are modelled as lists of characters. -/
abbrev Str := List Char

/-- Characters on which `re.findall(r'([^_\s]+)', ...)` does NOT match:
underscore and (ASCII) whitespace, the class `[_\s]`. -/
def isSepChar (c : Char) : Bool :=
  c = '_' || c = ' ' || c = '\t' || c = '\n' || c = '\r' ||
  c = Char.ofNat 11 || c = Char.ofNat 12

/-- Python `str.strip()` whitespace class (ASCII). -/
def isPyWs (c : Char) : Bool :=
  c = ' ' || c = '\t' || c = '\n' || c = '\r' ||
  c = Char.ofNat 11 || c = Char.ofNat 12

/-- Python `str.strip()`: drop leading and trailing whitespace. -/
def pyStrip (s : Str) : Str :=
  ((s.dropWhile isPyWs).reverse.dropWhile isPyWs).reverse

/-- The scan performed by `re.findall(r'([^_\s]+)', s)`: walk the string
left to right accumulating the current run of non-separator characters
(`acc`, reversed), emitting the run whenever a separator or the end of
the string is reached. -/
def findallAux : List Char → List Char → List Str
  | [], acc => if acc = [] then [] else [acc.reverse]
  | c :: cs, acc =>
    if isSepChar c then
      if acc = [] then findallAux cs []
      else acc.reverse :: findallAux cs []
    else
      findallAux cs (c :: acc)

/-- Result of `re.findall(r'([^_\s]+)', s)`: all maximal runs of characters that
are neither whitespace nor underscore, in order. -/
def pyFindall (s : Str) : List Str := findallAux s []

/-- The input of `parse_location_string_v1/v2`: the location cell can be
`None`, a non-string scalar, or a string. -/
inductive LocInput where
  | null
  | nonString
  | str (s : Str)

/-- Embedding of `parse_location_string_v1` (`partslabel.py:117-131`): start from seven
empty fields; a falsy or non-string input is returned as-is; otherwise
strip, tokenize with `re.findall(r'([^_\s]+)', ...)`, and write the first
seven tokens into the seven slots. -/
def parse_location_string_v1 (location : LocInput) : List Str :=
  match location with
  | .null => List.replicate 7 []
  | .nonString => List.replicate 7 []
  | .str s =>
    if s = [] then List.replicate 7 []
    else
      let ms := pyFindall (pyStrip s)
      (ms.take 7) ++ List.replicate (7 - (ms.take 7).length) []

/-- Embedding of `parse_location_string_v2` (`partslabel.py:133-147`): character for
character the same algorithm as `parse_location_string_v1`. -/
def parse_location_string_v2 (location : LocInput) : List Str :=
  match location with
  | .null => List.replicate 7 []
  | .nonString => List.replicate 7 []
  | .str s =>
    if s = [] then List.replicate 7 []
    else
      let ms := pyFindall (pyStrip s)
      (ms.take 7) ++ List.replicate (7 - (ms.take 7).length) []

/-- Spec-side tokenizer, following the spec's words: "a token is any
maximal run of characters that are neither whitespace nor underscore".
Skips separators; at a non-separator takes the whole maximal run and
continues after it. -/
def maximalRuns : List Char → List Str
  | [] => []
  | c :: cs =>
    if isSepChar c then maximalRuns cs
    else (c :: cs.takeWhile (fun d => !isSepChar d)) ::
      maximalRuns (cs.dropWhile (fun d => !isSepChar d))
  termination_by l => l.length
  decreasing_by
    · simp only [List.length_cons]; omega
    · have h2 : (cs.dropWhile fun d => !isSepChar d).length ≤ cs.length :=
        (List.dropWhile_sublist fun d => !isSepChar d).length_le
      simp only [List.length_cons]; omega

/-- Spec-side location parser: trim, tokenize into maximal runs, keep the
first 7 tokens, pad to 7 with empty strings; null/non-string/empty input
yields 7 empty strings. -/
def parseLocationSpec (location : LocInput) : List Str :=
  match location with
  | .null | .nonString => List.replicate 7 []
  | .str s =>
    if s = [] then List.replicate 7 []
    else
      let toks := (maximalRuns (pyStrip s)).take 7
      toks ++ List.replicate (7 - toks.length) []

/-- Python `s[-n:]` for a length-`n` tail: with `Nat` subtraction this is
also correct when `s` is shorter than `n` (the whole string). -/
def lastN (n : Nat) (s : Str) : Str := s.drop (s.length - n)

/-- Embedding of `format_part_no_v1` (`partslabel.py:51-62`): strings longer than 5
characters are split into `part_no[:len-5]` at font size 17 and
`part_no[-5:]` at font size 22; shorter strings are rendered whole at
size 17.  (The leading `str()` coercion is the identity on strings, the
only inputs this development considers.) -/
def format_part_no_v1 (part_no : Str) : List (Nat × Str) :=
  if 5 < part_no.length then
    [(17, part_no.take (part_no.length - 5)), (22, lastN 5 part_no)]
  else
    [(17, part_no)]

/-- Embedding of `format_part_no_v2` (`partslabel.py:64-75`): same split, font sizes
34 and 40. -/
def format_part_no_v2 (part_no : Str) : List (Nat × Str) :=
  if 5 < part_no.length then
    [(34, part_no.take (part_no.length - 5)), (40, lastN 5 part_no)]
  else
    [(34, part_no)]

/-- Embedding of `format_description_v1` (`partslabel.py:77-109`): font size from the
length bucket chain; only the final (`length > 90`) branch re-binds the
text, truncating to the first 100 characters plus `"..."` when the
length exceeds 100. -/
def format_description_v1 (desc : Str) : Nat × Str :=
  if desc.length ≤ 30 then (15, desc)
  else if desc.length ≤ 50 then (13, desc)
  else if desc.length ≤ 70 then (11, desc)
  else if desc.length ≤ 90 then (10, desc)
  else (9, if 100 < desc.length then desc.take 100 ++ ['.', '.', '.'] else desc)

/-- Embedding of `format_description` (`partslabel.py:111-115`), used by variant v2:
the text unchanged at the fixed 20pt `desc_style`. -/
def format_description (desc : Str) : Nat × Str := (20, desc)

/-! ## Pagination and the loop body (`partslabel.py:187-334`, `374-492`)

One per-eligible-group outcome per loop iteration.  Inside the `try`,
the pagination check against `label_count` and the `PageBreak()` append
(lines 211-212) and the increment `label_count += 1` (line 214) all run
BEFORE the fallible `Paragraph`/`Table` construction (lines 216-309),
whose exceptions the handler at 317-320 catches.  So a group that
raises there has already consumed its pagination slot — and possibly
appended a page break — but appends no block.  An eligible group's
outcome is `Except.ok block` (construction succeeded, block flowables
appended; they stay between the same two breaks, so they are one `blk`)
or `Except.error e` (construction raised; the handler surfaces `e` and
continues). -/

/-- A flowable in the `elements` list: a `PageBreak()` or a label block. -/
inductive PElem (α : Type) where
  | brk
  | blk (b : α)
deriving DecidableEq

/-- The generator loop over the eligible groups' outcomes, from
`label_count = count`: append a `PageBreak()` when
`label_count > 0 and label_count % 4 == 0`, increment `label_count`,
then run the fallible construction — on success append the block, on
failure append nothing and record the diagnostic (second component)
that the `except` handler surfaces before continuing. -/
def genLoop {ε β : Type} : Nat → List (Except ε β) → List (PElem β) × List ε
  | _, [] => ([], [])
  | count, g :: gs =>
    let rest := genLoop (count + 1) gs
    match g with
    | Except.ok b =>
      ((if 0 < count ∧ count % 4 = 0 then [PElem.brk] else []) ++
        PElem.blk b :: rest.1, rest.2)
    | Except.error e =>
      ((if 0 < count ∧ count % 4 = 0 then [PElem.brk] else []) ++ rest.1,
        e :: rest.2)

/-- The run's final step (`partslabel.py:325-334`): if the `elements`
list is non-empty — which an orphan `PageBreak` from a failed group
also makes it — build and return the document, else return `None`. -/
def runGenerator {ε β : Type} (outcomes : List (Except ε β)) :
    Option (List (PElem β)) :=
  if (genLoop 0 outcomes).1.isEmpty then none
  else some (genLoop 0 outcomes).1

/-- How the renderer splits the `elements` list into pages: a `brk` ends
the current page. -/
def splitPages {α : Type} : List (PElem α) → List (List α)
  | [] => [[]]
  | .brk :: rest => [] :: splitPages rest
  | .blk b :: rest =>
    match splitPages rest with
    | [] => [[b]]
    | p :: ps => (b :: p) :: ps

/-- Spec-side element stream for an all-successful run: a break goes
exactly before each block whose 0-based running index is a positive
multiple of 4. -/
def breaksSpec {α : Type} (bs : List α) : List (PElem α) :=
  (bs.enum.map fun p =>
    (if 0 < p.1 ∧ p.1 % 4 = 0 then [PElem.brk] else []) ++ [PElem.blk p.2]).flatten

/-- Spec-side element stream over the processed eligible groups: a break
goes exactly before each group whose 0-based processed index is a
positive multiple of 4 (failed groups counted too); a block only for
groups that built. -/
def breaksSpecE {ε β : Type} (outcomes : List (Except ε β)) : List (PElem β) :=
  (outcomes.enum.map fun p =>
    (if 0 < p.1 ∧ p.1 % 4 = 0 then [PElem.brk] else []) ++
      (match p.2 with
       | Except.ok b => [PElem.blk b]
       | Except.error _ => [])).flatten

/-- The block carried by a flowable, if any. -/
def blkOf {α : Type} : PElem α → Option α
  | .brk => none
  | .blk b => some b

/-- The diagnostic of a failed outcome, if any. -/
def errOf {ε β : Type} : Except ε β → Option ε
  | .error e => some e
  | .ok _ => none

/-- Whether an outcome placed a block. -/
def okFlag {ε β : Type} : Except ε β → Bool
  | .ok _ => true
  | .error _ => false

/-- Page sizes only depend on the ok/failed pattern of the outcomes:
`shapeE count pat` is `(splitPages (genLoop count outcomes).1).map
length` for any `outcomes` with `outcomes.map okFlag = pat`. -/
def shapeE : Nat → List Bool → List Nat
  | _, [] => [0]
  | count, ok :: pat =>
    let tail := shapeE (count + 1) pat
    let withBlk :=
      if ok then
        match tail with
        | [] => [1]
        | h :: t => (h + 1) :: t
      else tail
    if 0 < count ∧ count % 4 = 0 then 0 :: withBlk else withBlk

/-- Embedding of `group.head(2)` followed by the pair-selection branches of the v1
loop (`partslabel.py:199-209`): an empty group is skipped, a singleton
group fills both slots with its only record, otherwise the first two
records are used and the rest dropped. -/
def pickPair {α : Type} (group : List α) : Option (α × α) :=
  match group.take 2 with
  | [] => none
  | [p] => some (p, p)
  | p1 :: p2 :: _ => some (p1, p2)

/-! ## Column resolution (`partslabel.py:160-175`, identical `347-362`) -/

/-- Python's substring test `needle in haystack`: some contiguous slice
of `haystack` equals `needle`. -/
def containsSub (needle : List Char) : List Char → Bool
  | [] => needle.isEmpty
  | c :: t => needle.isPrefixOf (c :: t) || containsSub needle t

/-- Test `'PART' in col and ('NO' in col or 'NUM' in col or '#' in col)`. -/
def isPartNoName (col : Str) : Bool :=
  containsSub "PART".data col &&
    (containsSub "NO".data col || containsSub "NUM".data col ||
      containsSub "#".data col)

/-- Test `col in ['PARTNO', 'PART']`. -/
def isPartExactName (col : Str) : Bool :=
  col = "PARTNO".data || col = "PART".data

/-- Test `'DESC' in col`. -/
def isDescName (col : Str) : Bool := containsSub "DESC".data col

/-- Test `'LOC' in col or 'POS' in col`. -/
def isLocName (col : Str) : Bool :=
  containsSub "LOC".data col || containsSub "POS".data col

/-- Python truthiness test on an optional string (`if not part_no_col`):
falsy for `None` and for the empty string. -/
def pyFalsy (o : Option Str) : Bool :=
  match o with
  | none => true
  | some s => s.isEmpty

/-- Column resolution on the upper-cased column names
(`partslabel.py:160-175`): `next(..., default)` is `List.find?` with an
`Option` fallback, the `if not ...` fallbacks test Python truthiness,
and the positional fallback `cols[0]` raises `IndexError` on an empty
column list, modelled as `none`. -/
def resolveColumns (cols : List Str) : Option (Str × Str × Str) :=
  let pn0 : Option Str :=
    match cols.find? isPartNoName with
    | some c => some c
    | none => cols.find? isPartExactName
  let d0 := cols.find? isDescName
  let l0 := cols.find? isLocName
  match (if pyFalsy pn0 then cols.head? else pn0) with
  | none => none
  | some pn =>
    let d := if pyFalsy d0 then
        (if h : 1 < cols.length then cols.get ⟨1, h⟩ else pn)
      else d0.getD pn
    let l := if pyFalsy l0 then
        (if h : 2 < cols.length then cols.get ⟨2, h⟩ else d)
      else l0.getD d
    some (pn, d, l)

/-- Modelled from the spec's words (§4.1): "first column containing …"
as filter-then-head, with the positional fallbacks first column / second
column / third column. -/
def resolveColumnsSpec (cols : List Str) : Option (Str × Str × Str) :=
  match cols with
  | [] => none
  | c0 :: _ =>
    let pn := match (cols.filter isPartNoName).head? with
      | some c => c
      | none =>
        match (cols.filter isPartExactName).head? with
        | some c => c
        | none => c0
    let d := match (cols.filter isDescName).head? with
      | some c => c
      | none => if h : 1 < cols.length then cols.get ⟨1, h⟩ else pn
    let l := match (cols.filter isLocName).head? with
      | some c => c
      | none => if h : 2 < cols.length then cols.get ⟨2, h⟩ else d
    some (pn, d, l)

/-! ## Location strip coloring (`partslabel.py:270-309` / `431-468`) -/

/-- Palette `location_colors` (`partslabel.py:286-294`, identical `445-453`):
salmon, light-blue, light-green, gold, light-blue, salmon,
light-green. -/
def locationColors : List Str :=
  ["#E9967A".data, "#ADD8E6".data, "#90EE90".data, "#FFD700".data,
   "#ADD8E6".data, "#E9967A".data, "#90EE90".data]

/-- The location strip: row data is the fixed "Part Location" header
followed by the 7 parsed fields; `for j, color in
enumerate(location_colors)` adds a BACKGROUND command for cell `j + 1`
with the `j`-th palette color, never reading the field values. -/
def buildLocationStrip (fields : List Str) : List Str × List (Nat × Str) :=
  ("Part Location".data :: fields,
    locationColors.enum.map fun p => (p.1 + 1, p.2))

/-! ## Grouping (`partslabel.py:181` / `368`): `df.groupby(loc_col)`

pandas `groupby` with the default `sort=True` iterates the groups in
ascending order of the raw key values, not in encounter order. -/

/-- Code-point comparison of raw location keys: how pandas orders Python
strings when sorting group keys. -/
def strLt : Str → Str → Bool
  | [], [] => false
  | [], _ :: _ => true
  | _ :: _, [] => false
  | a :: as, b :: bs =>
    if a < b then true else if b < a then false else strLt as bs

/-- Nonstrict key order `s ≤ t`. -/
def strLe (s t : Str) : Bool := !strLt t s

/-- Insertion into an ascending key list. -/
def insertSorted (k : Str) : List Str → List Str
  | [] => [k]
  | x :: xs => if strLe k x then k :: x :: xs else x :: insertSorted k xs

/-- Ascending sort of the group keys. -/
def sortKeys : List Str → List Str
  | [] => []
  | k :: ks => insertSorted k (sortKeys ks)

/-- The distinct values of a list, keeping first occurrences. -/
def firstKeysAux (seen : List Str) : List Str → List Str
  | [] => []
  | k :: ks =>
    if k ∈ seen then firstKeysAux seen ks
    else k :: firstKeysAux (k :: seen) ks

/-- Iterating `df.groupby(loc_col)` (default `sort=True`, exact raw
equality of keys): the distinct raw values of the location column in
ascending order, each paired with the rows carrying exactly that raw
value, in original row order. -/
def groupByLoc {ρ : Type} (loc : ρ → Str) (rows : List ρ) :
    List (Str × List ρ) :=
  (sortKeys (firstKeysAux [] (rows.map loc))).map
    fun k => (k, rows.filter fun r => decide (loc r = k))

/-- Modelled from the spec: "iteration order over groups follows the
order locations first appear". -/
def firstAppearanceKeys {ρ : Type} (loc : ρ → Str) (rows : List ρ) :
    List Str :=
  firstKeysAux [] (rows.map loc)

/-! ## The generators as state-passing functions on the DataFrame -/

/-- ASCII upper-casing of one character, `str.upper()` on the column
names of this data model. -/
def pyUpperChar (c : Char) : Char :=
  if 'a' ≤ c && c ≤ 'z' then Char.ofNat (c.toNat - 32) else c

/-- Python `col.upper()`. -/
def strUpper (s : Str) : Str := s.map pyUpperChar

/-- The pandas DataFrame as the generators see it: column names plus
rows of cells aligned with the columns. -/
structure DataFrame where
  columns : List Str
  rows : List (List Str)
deriving DecidableEq

/-- Lookup `row[col]`: the cell under a column label.  The generators only look
up labels produced by the column resolver, which are members of
`columns`. -/
def cellVal (cols : List Str) (row : List Str) (c : Str) : Str :=
  row.getD (cols.findIdx fun x => decide (x = c)) []

/-- The v1 label block: two formatted part rows plus the location
strip. -/
structure PairBlock where
  part1 : List (Nat × Str) × (Nat × Str)
  part2 : List (Nat × Str) × (Nat × Str)
  strip : List Str × List (Nat × Str)
deriving DecidableEq

/-- The v2 label block: one formatted part row plus the location
strip. -/
structure SingleBlock where
  part : List (Nat × Str) × (Nat × Str)
  strip : List Str × List (Nat × Str)
deriving DecidableEq

/-- Embedding of `group.head(2)` and the record selection of the v2 loop
(`partslabel.py:386-394`): the first record of the group, if any. -/
def pickFirst {α : Type} (group : List α) : Option α :=
  match group.take 2 with
  | [] => none
  | p :: _ => some p

/-- Embedding of `generate_labels_from_excel_v1` (`partslabel.py:149-334`) as a
state-passing function: the second component is the caller's DataFrame
after the run — its `columns` are re-assigned upper-cased (line 161)
before column resolution and never restored.  The first component is
the produced element stream; `none` both when the `elements` list ended
up empty and when the run raised (empty column list).  The pure
embedding cannot decide which `Paragraph`/`Table` constructions raise —
that depends on the rendering library — so `raises` supplies that
environmental outcome per location group (`none` = the construction
succeeds, `some e` = it raises `e`, caught by the handler at 317-320
after the pagination slot was already consumed). -/
def generate_labels_from_excel_v1
    (raises : Str × List (List Str) → Option Str) (df : DataFrame) :
    Option (List (PElem PairBlock)) × DataFrame :=
  let dfU : DataFrame := { df with columns := df.columns.map strUpper }
  match resolveColumns dfU.columns with
  | none => (none, dfU)
  | some (pnCol, descCol, locCol) =>
    let groups := groupByLoc (fun r => cellVal dfU.columns r locCol) dfU.rows
    let outcomes : List (Except Str PairBlock) := groups.filterMap fun kg =>
      (pickPair kg.2).map fun pr =>
        match raises kg with
        | some e => Except.error e
        | none => Except.ok
          { part1 := (format_part_no_v1 (cellVal dfU.columns pr.1 pnCol),
              format_description_v1 (cellVal dfU.columns pr.1 descCol)),
            part2 := (format_part_no_v1 (cellVal dfU.columns pr.2 pnCol),
              format_description_v1 (cellVal dfU.columns pr.2 descCol)),
            strip := buildLocationStrip
              (parse_location_string_v1
                (.str (cellVal dfU.columns pr.1 locCol))) : PairBlock }
    let elements := (genLoop 0 outcomes).1
    (if elements.isEmpty then none else some elements, dfU)

/-- Embedding of `generate_labels_from_excel_v2` (`partslabel.py:336-492`): same
pipeline with single-record blocks, v2 typography and the v2 parser;
`raises` again supplies the per-group construction outcome. -/
def generate_labels_from_excel_v2
    (raises : Str × List (List Str) → Option Str) (df : DataFrame) :
    Option (List (PElem SingleBlock)) × DataFrame :=
  let dfU : DataFrame := { df with columns := df.columns.map strUpper }
  match resolveColumns dfU.columns with
  | none => (none, dfU)
  | some (pnCol, descCol, locCol) =>
    let groups := groupByLoc (fun r => cellVal dfU.columns r locCol) dfU.rows
    let outcomes : List (Except Str SingleBlock) := groups.filterMap fun kg =>
      (pickFirst kg.2).map fun r =>
        match raises kg with
        | some e => Except.error e
        | none => Except.ok
          { part := (format_part_no_v2 (cellVal dfU.columns r pnCol),
              format_description (cellVal dfU.columns r descCol)),
            strip := buildLocationStrip
              (parse_location_string_v2
                (.str (cellVal dfU.columns r locCol))) : SingleBlock }
    let elements := (genLoop 0 outcomes).1
    (if elements.isEmpty then none else some elements, dfU)

/-- A record set with lower-case column names, as a caller would load
it. -/
def sampleDf : DataFrame :=
  { columns := ["part no".data, "desc".data, "loc".data],
    rows := [["A1".data, "widget".data, "12M R 0".data]] }

/-- A run of five eligible groups whose first group fails in the block
construction and whose remaining four succeed. -/
def failThenFour : List (Except Str Nat) :=
  [Except.error [ 'e' ], Except.ok 1, Except.ok 2, Except.ok 3, Except.ok 4]

/-! ## Lemmas and claim theorems -/

lemma findallAux_eq (cs : List Char) :
    findallAux cs [] = maximalRuns cs ∧
    ∀ acc : List Char, acc ≠ [] →
      findallAux cs acc =
        (acc.reverse ++ cs.takeWhile (fun d => !isSepChar d)) ::
          maximalRuns (cs.dropWhile (fun d => !isSepChar d)) := by
  induction cs with
  | nil =>
    refine ⟨by simp [findallAux, maximalRuns], fun acc hacc => ?_⟩
    simp [findallAux, hacc, maximalRuns]
  | cons c cs ih =>
    by_cases hsep : isSepChar c
    · refine ⟨?_, fun acc hacc => ?_⟩
      · simp [findallAux, hsep, maximalRuns, ih.1]
      · simp [findallAux, hsep, hacc, ih.1, List.takeWhile,
          List.dropWhile, maximalRuns]
    · rw [Bool.not_eq_true] at hsep
      have hB := ih.2
      refine ⟨?_, fun acc hacc => ?_⟩
      · have h1 := hB [c] (by simp)
        simp [findallAux, hsep, h1, maximalRuns]
      · simp only [findallAux, hsep]
        rw [hB (c :: acc) (by simp)]
        simp [List.takeWhile, List.dropWhile, hsep]

/-- The scan of `re.findall` produces exactly the maximal runs of
non-separator characters. -/
lemma pyFindall_eq_maximalRuns (s : Str) : pyFindall s = maximalRuns s :=
  (findallAux_eq s).1

/-- C1: both location-parsing entry points return exactly 7 fields for
every input, agree with each other, and equal the spec's
trim / maximal-run tokenize / take-7 / pad description; null, non-string
and empty inputs give 7 empty strings. -/
theorem C1_location_parser_always_seven_fields (location : LocInput) :
    (parse_location_string_v1 location).length = 7 ∧
    parse_location_string_v2 location = parse_location_string_v1 location ∧
    parse_location_string_v1 location = parseLocationSpec location ∧
    parse_location_string_v1 .null = List.replicate 7 [] ∧
    parse_location_string_v1 .nonString = List.replicate 7 [] ∧
    parse_location_string_v1 (.str []) = List.replicate 7 [] := by
  refine ⟨?_, ?_, ?_, rfl, rfl, by simp [parse_location_string_v1]⟩
  · cases location with
    | null => simp [parse_location_string_v1]
    | nonString => simp [parse_location_string_v1]
    | str s =>
      by_cases h : s = []
      · simp [parse_location_string_v1, h]
      · simp only [parse_location_string_v1, if_neg h, List.length_append,
          List.length_replicate, List.length_take]
        omega
  · cases location <;> rfl
  · cases location with
    | null => rfl
    | nonString => rfl
    | str s =>
      by_cases h : s = [] <;>
        simp [parse_location_string_v1, parseLocationSpec, h,
          pyFindall_eq_maximalRuns]

/-- C3: for part numbers longer than 5 characters both variants split at
`length - 5` into a prefix of length `length - 5` (smaller size: 17 in
v1, 34 in v2) and a suffix of exactly 5 characters (larger size: 22 in
v1, 40 in v2), and prefix ++ suffix reconstructs the input; for length
≤ 5 the whole string is rendered at the smaller size only. -/
theorem C3_part_no_split_roundtrip (s : Str) :
    if 5 < s.length then
      format_part_no_v1 s =
          [(17, s.take (s.length - 5)), (22, s.drop (s.length - 5))] ∧
      format_part_no_v2 s =
          [(34, s.take (s.length - 5)), (40, s.drop (s.length - 5))] ∧
      (s.take (s.length - 5)).length = s.length - 5 ∧
      (s.drop (s.length - 5)).length = 5 ∧
      s.take (s.length - 5) ++ s.drop (s.length - 5) = s
    else
      format_part_no_v1 s = [(17, s)] ∧ format_part_no_v2 s = [(34, s)] := by
  by_cases h : 5 < s.length
  · rw [if_pos h]
    refine ⟨?_, ?_, ?_, ?_, List.take_append_drop _ _⟩
    · simp [format_part_no_v1, h, lastN]
    · simp [format_part_no_v2, h, lastN]
    · simp only [List.length_take]; omega
    · simp only [List.length_drop]; omega
  · simp [h, format_part_no_v1, format_part_no_v2]

/-- C6: under v1 the description font size is chosen by the length
buckets ≤30 → 15, ≤50 → 13, ≤70 → 11, ≤90 → 10, else 9, and the text is
truncated to exactly 100 characters plus an ellipsis iff the length
exceeds 100, otherwise left unchanged. -/
theorem C6_description_bucket_and_truncation (d : Str) :
    (format_description_v1 d).1 =
      (if d.length ≤ 30 then 15 else if d.length ≤ 50 then 13
       else if d.length ≤ 70 then 11 else if d.length ≤ 90 then 10 else 9) ∧
    (format_description_v1 d).2 =
      (if 100 < d.length then d.take 100 ++ ['.', '.', '.'] else d) ∧
    (if 100 < d.length then (d.take 100).length = 100
     else (format_description_v1 d).2 = d) := by
  simp only [format_description_v1]
  split_ifs <;>
    first
      | rfl
      | omega
      | (refine ⟨rfl, rfl, ?_⟩; simp only [List.length_take]; omega)
      | exact ⟨rfl, rfl, rfl⟩

lemma genLoop_eq_enumFrom {ε β : Type} (outcomes : List (Except ε β)) :
    ∀ count : Nat,
    (genLoop count outcomes).1 =
      ((outcomes.enumFrom count).map fun p =>
        (if 0 < p.1 ∧ p.1 % 4 = 0 then [PElem.brk] else []) ++
          (match p.2 with
           | Except.ok b => [PElem.blk b]
           | Except.error _ => [])).flatten := by
  induction outcomes with
  | nil => intro count; simp [genLoop]
  | cons g gs ih =>
    intro count
    rcases g with e | b <;>
      simp [genLoop, List.enumFrom, ih (count + 1)]

lemma genLoop_all_ok {ε β : Type} (bs : List β) : ∀ count : Nat,
    (genLoop count (bs.map (Except.ok : β → Except ε β))).1 =
      ((bs.enumFrom count).map fun p =>
        (if 0 < p.1 ∧ p.1 % 4 = 0 then [PElem.brk] else []) ++
          [PElem.blk p.2]).flatten := by
  induction bs with
  | nil => intro count; simp [genLoop]
  | cons b bs ih =>
    intro count
    simp [genLoop, List.enumFrom, ih (count + 1)]

lemma splitPages_ne_nil {α : Type} : ∀ l : List (PElem α), splitPages l ≠ []
  | [] => by simp [splitPages]
  | .brk :: rest => by simp [splitPages]
  | .blk b :: rest => by
    simp only [splitPages]
    cases splitPages rest <;> simp

lemma shapeE_ne_nil : ∀ (pat : List Bool) (count : Nat), shapeE count pat ≠ []
  | [], count => by simp [shapeE]
  | ok :: pat, count => by
    have ih := shapeE_ne_nil pat (count + 1)
    simp only [shapeE]
    cases hS : shapeE (count + 1) pat with
    | nil => exact absurd hS ih
    | cons h t =>
      cases ok <;> by_cases h4 : 0 < count ∧ count % 4 = 0 <;> simp [h4]

lemma splitPages_genLoop_len {ε β : Type} (outcomes : List (Except ε β)) :
    ∀ count : Nat,
    (splitPages (genLoop count outcomes).1).map List.length =
      shapeE count (outcomes.map okFlag) := by
  induction outcomes with
  | nil => intro count; simp [genLoop, splitPages, shapeE]
  | cons g gs ih =>
    intro count
    have hne := splitPages_ne_nil (genLoop (count + 1) gs).1
    rcases g with e | b
    · by_cases h : 0 < count ∧ count % 4 = 0
      · simp only [genLoop, if_pos h, List.singleton_append, List.map_cons,
          okFlag, shapeE, splitPages, Bool.false_eq_true, if_false]
        rw [ih (count + 1)]
        rfl
      · simp only [genLoop, if_neg h, List.nil_append, List.map_cons,
          okFlag, shapeE, Bool.false_eq_true, if_false, if_neg h]
        exact ih count.succ
    · by_cases h : 0 < count ∧ count % 4 = 0
      · simp only [genLoop, if_pos h, List.singleton_append, List.map_cons,
          okFlag, shapeE, if_true, splitPages]
        cases hsp : splitPages (genLoop (count + 1) gs).1 with
        | nil => exact absurd hsp hne
        | cons p ps =>
          have := ih (count + 1)
          rw [hsp] at this
          cases hshape : shapeE (count + 1) (gs.map okFlag) with
          | nil => exact absurd hshape (shapeE_ne_nil _ _)
          | cons sh st =>
            rw [hshape] at this
            simp only [List.map_cons] at this
            injection this with h1 h2
            simp [h1, h2]
      · simp only [genLoop, if_neg h, List.nil_append, List.map_cons,
          okFlag, shapeE, if_true, if_neg h, splitPages]
        cases hsp : splitPages (genLoop (count + 1) gs).1 with
        | nil => exact absurd hsp hne
        | cons p ps =>
          have := ih (count + 1)
          rw [hsp] at this
          cases hshape : shapeE (count + 1) (gs.map okFlag) with
          | nil => exact absurd hshape (shapeE_ne_nil _ _)
          | cons sh st =>
            rw [hshape] at this
            simp only [List.map_cons] at this
            injection this with h1 h2
            simp [h1, h2]

lemma shapeE_bounds : ∀ (pat : List Bool) (count : Nat),
    (∀ x ∈ shapeE count pat, x ≤ 4) ∧
    (∀ h t, shapeE count pat = h :: t →
      if 0 < count ∧ count % 4 = 0 then h = 0 else h + count % 4 ≤ 4) := by
  intro pat
  induction pat with
  | nil =>
    intro count
    refine ⟨by simp [shapeE], fun h t hht => ?_⟩
    simp only [shapeE, List.cons.injEq] at hht
    obtain ⟨hh, -⟩ := hht
    subst hh
    by_cases hc : 0 < count ∧ count % 4 = 0
    · simp [hc]
    · rw [if_neg hc]; omega
  | cons ok pat ih =>
    intro count
    obtain ⟨ihAll, ihHead⟩ := ih (count + 1)
    cases hS : shapeE (count + 1) pat with
    | nil => exact absurd hS (shapeE_ne_nil _ _)
    | cons h' t' =>
      have hhead := ihHead h' t' hS
      have hAll' : ∀ x ∈ h' :: t', x ≤ 4 := by rw [← hS]; exact ihAll
      have hh'le : h' + 1 ≤ 4 := by
        by_cases hc' : 0 < count + 1 ∧ (count + 1) % 4 = 0
        · rw [if_pos hc'] at hhead; omega
        · rw [if_neg hc'] at hhead
          have : (count + 1) % 4 ≠ 0 := by
            intro hmod; exact hc' ⟨Nat.succ_pos _, hmod⟩
          omega
      have hheadBound : ∀ hh, (ok = true → hh = h' + 1) →
          (ok = false → hh = h') →
          ¬(0 < count ∧ count % 4 = 0) → hh + count % 4 ≤ 4 := by
        intro hh hok hnok hc
        have hhle : hh ≤ h' + 1 := by
          cases ok
          · rw [hnok rfl]; omega
          · rw [hok rfl]
        by_cases hc' : 0 < count + 1 ∧ (count + 1) % 4 = 0
        · rw [if_pos hc'] at hhead
          omega
        · rw [if_neg hc'] at hhead
          have h1 : (count + 1) % 4 ≠ 0 := by
            intro hmod; exact hc' ⟨Nat.succ_pos _, hmod⟩
          have hcount : count = 0 ∨ count % 4 ≠ 0 := by
            by_cases h0 : count = 0
            · exact Or.inl h0
            · refine Or.inr fun hmod => hc ⟨Nat.pos_of_ne_zero h0, hmod⟩
          omega
      cases ok
      · by_cases hc : 0 < count ∧ count % 4 = 0
        · refine ⟨?_, fun h t hht => ?_⟩
          · intro x hx
            simp only [shapeE, hS, if_pos hc, Bool.false_eq_true, if_false,
              List.mem_cons] at hx
            rcases hx with hx | hx | hx
            · omega
            · exact hx ▸ hAll' h' (List.mem_cons_self _ _)
            · exact hAll' x (List.mem_cons_of_mem _ hx)
          · simp only [shapeE, hS, if_pos hc, Bool.false_eq_true, if_false,
              List.cons.injEq] at hht
            rw [if_pos hc]
            exact hht.1.symm
        · refine ⟨?_, fun h t hht => ?_⟩
          · intro x hx
            simp only [shapeE, hS, if_neg hc, Bool.false_eq_true,
              if_false] at hx
            exact hAll' x hx
          · simp only [shapeE, hS, if_neg hc, Bool.false_eq_true, if_false,
              List.cons.injEq] at hht
            rw [if_neg hc, ← hht.1]
            exact hheadBound h' (by simp) (fun _ => rfl) hc
      · by_cases hc : 0 < count ∧ count % 4 = 0
        · refine ⟨?_, fun h t hht => ?_⟩
          · intro x hx
            simp only [shapeE, hS, if_pos hc, if_true, List.mem_cons] at hx
            rcases hx with hx | hx | hx
            · omega
            · omega
            · exact hAll' x (List.mem_cons_of_mem _ hx)
          · simp only [shapeE, hS, if_pos hc, if_true, List.cons.injEq] at hht
            rw [if_pos hc]
            exact hht.1.symm
        · refine ⟨?_, fun h t hht => ?_⟩
          · intro x hx
            simp only [shapeE, hS, if_neg hc, if_true, List.mem_cons] at hx
            rcases hx with hx | hx
            · omega
            · exact hAll' x (List.mem_cons_of_mem _ hx)
          · simp only [shapeE, hS, if_neg hc, if_true, List.cons.injEq] at hht
            rw [if_neg hc, ← hht.1]
            exact hheadBound (h' + 1) (fun _ => rfl) (by simp) hc

lemma map_true_eq_replicate {β : Type} (bs : List β) :
    bs.map (fun _ => true) = List.replicate bs.length true := by
  induction bs with
  | nil => rfl
  | cons b bs ih => simp [ih, List.replicate_succ]

lemma genLoop_blocks {ε β : Type} (outcomes : List (Except ε β)) :
    ∀ count : Nat,
    (genLoop count outcomes).1.filterMap blkOf =
      outcomes.filterMap Except.toOption := by
  induction outcomes with
  | nil => intro count; simp [genLoop]
  | cons g gs ih =>
    intro count
    rcases g with e | b <;>
      by_cases h : 0 < count ∧ count % 4 = 0 <;>
        simp [genLoop, h, blkOf, Except.toOption, ih (count + 1),
          List.filterMap_cons, List.filterMap_append]

lemma genLoop_diags {ε β : Type} (outcomes : List (Except ε β)) :
    ∀ count : Nat,
    (genLoop count outcomes).2 = outcomes.filterMap errOf := by
  induction outcomes with
  | nil => intro count; simp [genLoop]
  | cons g gs ih =>
    intro count
    rcases g with e | b <;>
      simp [genLoop, errOf, ih (count + 1), List.filterMap_cons]

lemma genLoop_nil_of_short {ε β : Type} (outcomes : List (Except ε β)) :
    ∀ count : Nat, outcomes.filterMap Except.toOption = [] →
      count + outcomes.length ≤ 4 → (genLoop count outcomes).1 = [] := by
  induction outcomes with
  | nil => intro count _ _; simp [genLoop]
  | cons g gs ih =>
    intro count hok hlen
    simp only [List.length_cons] at hlen
    rcases g with e | b
    · have hc : ¬(0 < count ∧ count % 4 = 0) := by
        rintro ⟨h1, h2⟩
        omega
      simp only [genLoop, if_neg hc, List.nil_append]
      refine ih (count + 1) ?_ (by omega)
      simpa [Except.toOption, List.filterMap_cons] using hok
    · simp [Except.toOption, List.filterMap_cons] at hok

lemma genLoop_ne_nil_of_break {ε β : Type} (outcomes : List (Except ε β)) :
    ∀ count : Nat, 0 < count →
      ((count % 4 = 0 ∧ outcomes ≠ []) ∨
        (0 < count % 4 ∧ 5 - count % 4 ≤ outcomes.length)) →
      (genLoop count outcomes).1 ≠ [] := by
  induction outcomes with
  | nil =>
    intro count hpos hcond
    rcases hcond with ⟨_, hne⟩ | ⟨hr, hlen⟩
    · exact absurd rfl hne
    · simp only [List.length_nil] at hlen
      omega
  | cons g gs ih =>
    intro count hpos hcond
    by_cases hc : 0 < count ∧ count % 4 = 0
    · rcases g with e | b <;> simp [genLoop, hc]
    · have hr : 0 < count % 4 := by
        rcases Nat.eq_zero_or_pos (count % 4) with h0 | h1
        · exact absurd ⟨hpos, h0⟩ hc
        · exact h1
      have hlen : 5 - count % 4 ≤ (g :: gs).length := by
        rcases hcond with ⟨h0, _⟩ | ⟨_, h⟩
        · omega
        · exact h
      simp only [List.length_cons] at hlen
      rcases g with e | b
      · simp only [genLoop, if_neg hc, List.nil_append]
        refine ih (count + 1) (Nat.succ_pos _) ?_
        by_cases h3 : count % 4 = 3
        · refine Or.inl ⟨by omega, ?_⟩
          have hpos' : 0 < gs.length := by omega
          exact List.length_pos.mp hpos'
        · exact Or.inr ⟨by omega, by omega⟩
      · simp [genLoop, hc]

lemma genLoop_ne_nil_of_five {ε β : Type} (outcomes : List (Except ε β)) :
    5 ≤ outcomes.length → (genLoop 0 outcomes).1 ≠ [] := by
  intro h5
  cases outcomes with
  | nil => simp at h5
  | cons g gs =>
    have hc : ¬((0 : Nat) < 0 ∧ 0 % 4 = 0) := by omega
    simp only [List.length_cons] at h5
    rcases g with e | b
    · simp only [genLoop, if_neg hc, List.nil_append]
      refine genLoop_ne_nil_of_break gs 1 Nat.one_pos (Or.inr ⟨?_, ?_⟩)
      · omega
      · omega
    · simp [genLoop, hc]

lemma find?_eq_head?_filter (p : Str → Bool) :
    ∀ l : List Str, l.find? p = (l.filter p).head? := by
  intro l
  induction l with
  | nil => rfl
  | cons c cs ih =>
    by_cases h : p c
    · rw [List.find?_cons_of_pos _ h, List.filter_cons_of_pos h]
      rfl
    · rw [List.find?_cons_of_neg _ h, List.filter_cons_of_neg h, ih]

lemma col_preds_ne_nil :
    isPartNoName [] = false ∧ isPartExactName [] = false ∧
    isDescName [] = false ∧ isLocName [] = false := by decide

lemma find?_col_ne_nil {p : Str → Bool} {cols : List Str} {c : Str}
    (hp : p [] = false) (h : cols.find? p = some c) : c ≠ [] := by
  intro hc
  subst hc
  have := List.find?_some h
  rw [hp] at this
  exact Bool.false_ne_true this

/-- C2 counterexample: one failing group followed by four successful
ones yields the element stream [blk, blk, blk, brk, blk] — a page break
before the 4th placed block (0-based placed index 3, not a positive
multiple of 4) — because the failed group already advanced
`label_count` (line 214) before its construction raised.  The stream
therefore differs from the claim's per-placed-block law. -/
theorem C2_break_shifted_by_failed_group :
    (genLoop 0 failThenFour).1 ≠
      breaksSpec (failThenFour.filterMap Except.toOption) ∧
    (genLoop 0 failThenFour).1 =
      [PElem.blk 1, PElem.blk 2, PElem.blk 3, PElem.brk, PElem.blk 4] := by
  decide

/-- C2 amended: a page break goes exactly before each processed eligible
group whose 0-based running count of previously processed eligible
groups — counting also groups whose block construction later fails — is
a positive multiple of 4; only successful groups append a block, so
every page holds at most 4 blocks; when every eligible group yields a
block the break falls exactly before the 5th, 9th, 13th, … block, and 9
such groups produce exactly 3 pages with block counts [4, 4, 1]. -/
theorem C2_pagination_fencepost {ε β : Type} (outcomes : List (Except ε β)) :
    (genLoop 0 outcomes).1 = breaksSpecE outcomes ∧
    (∀ p ∈ splitPages (genLoop 0 outcomes).1, p.length ≤ 4) ∧
    ∀ bs : List β, outcomes = bs.map Except.ok →
      (genLoop 0 outcomes).1 = breaksSpec bs ∧
      (bs.length = 9 →
        (splitPages (genLoop 0 outcomes).1).map List.length = [4, 4, 1]) := by
  refine ⟨?_, fun p hp => ?_, fun bs hbs => ⟨?_, fun h9 => ?_⟩⟩
  · rw [genLoop_eq_enumFrom outcomes 0]
    rfl
  · have hlen := splitPages_genLoop_len outcomes 0
    have hall := (shapeE_bounds (outcomes.map okFlag) 0).1
    have : p.length ∈ shapeE 0 (outcomes.map okFlag) := by
      rw [← hlen]
      exact List.mem_map_of_mem List.length hp
    exact hall p.length this
  · subst hbs
    rw [genLoop_all_ok bs 0]
    rfl
  · subst hbs
    rw [splitPages_genLoop_len _ 0]
    have h2 : (bs.map (Except.ok : β → Except ε β)).map okFlag =
        List.replicate bs.length true := by
      rw [List.map_map]
      have h3 : (okFlag ∘ (Except.ok : β → Except ε β)) =
          fun _ => true := by
        funext x
        rfl
      rw [h3, map_true_eq_replicate]
    rw [h2, h9]
    decide

/-- Witness for the amended C2 at 9 all-successful groups: the first
page is one of the pages and holds 4 ≤ 4 blocks, the stream follows the
all-success law, and the page sizes are [4, 4, 1]. -/
theorem C2_pagination_fencepost_witness :
    ([0, 1, 2, 3] : List Nat).length ≤ 4 ∧
    (splitPages (genLoop 0 ((List.range 9).map
        (Except.ok : Nat → Except Str Nat))).1).map List.length = [4, 4, 1] :=
  ⟨(C2_pagination_fencepost ((List.range 9).map
      (Except.ok : Nat → Except Str Nat))).2.1 [0, 1, 2, 3] (by decide),
   ((C2_pagination_fencepost ((List.range 9).map
      (Except.ok : Nat → Except Str Nat))).2.2 (List.range 9) rfl).2
      (by decide)⟩

/-- C4: under v1, a location group with 0 records yields no block, with
exactly 1 record the sole record is duplicated into both slots, and with
2 or more records exactly the first two (in encounter order) fill the
slots and the rest are dropped. -/
theorem C4_v1_pair_selection {α : Type} :
    pickPair ([] : List α) = none ∧
    (∀ r : α, pickPair [r] = some (r, r)) ∧
    ∀ (r1 r2 : α) (rest : List α), pickPair (r1 :: r2 :: rest) = some (r1, r2) :=
  ⟨rfl, fun _ => rfl, fun _ _ _ => rfl⟩

lemma isEmpty_false_of_ne_nil {l : Str} (h : l ≠ []) : l.isEmpty = false := by
  cases l with
  | nil => exact absurd rfl h
  | cons a as => rfl

/-- C5: on any non-empty set of (upper-cased) column names the resolver
returns a result (no error even when degenerate) and that result follows
the spec's first-match-wins rules with positional fallbacks. -/
theorem C5_column_resolver_total_and_spec (cols : List Str) (h : cols ≠ []) :
    (resolveColumns cols).isSome = true ∧
    resolveColumns cols = resolveColumnsSpec cols := by
  obtain ⟨c0, rest, rfl⟩ := List.exists_cons_of_ne_nil h
  have e1 := find?_eq_head?_filter isPartNoName (c0 :: rest)
  have e2 := find?_eq_head?_filter isPartExactName (c0 :: rest)
  have e3 := find?_eq_head?_filter isDescName (c0 :: rest)
  have e4 := find?_eq_head?_filter isLocName (c0 :: rest)
  have hd : ∀ pn : Str,
      (if pyFalsy ((c0 :: rest).find? isDescName) then
          (if h : 1 < (c0 :: rest).length then (c0 :: rest).get ⟨1, h⟩ else pn)
        else ((c0 :: rest).find? isDescName).getD pn) =
      (match ((c0 :: rest).filter isDescName).head? with
        | some c => c
        | none =>
          if h : 1 < (c0 :: rest).length then (c0 :: rest).get ⟨1, h⟩
          else pn) := by
    intro pn
    rw [← e3]
    rcases hD : (c0 :: rest).find? isDescName with _ | cd
    · simp [pyFalsy]
    · have hne := find?_col_ne_nil col_preds_ne_nil.2.2.1 hD
      simp [pyFalsy, isEmpty_false_of_ne_nil hne]
  have hl : ∀ d : Str,
      (if pyFalsy ((c0 :: rest).find? isLocName) then
          (if h : 2 < (c0 :: rest).length then (c0 :: rest).get ⟨2, h⟩ else d)
        else ((c0 :: rest).find? isLocName).getD d) =
      (match ((c0 :: rest).filter isLocName).head? with
        | some c => c
        | none =>
          if h : 2 < (c0 :: rest).length then (c0 :: rest).get ⟨2, h⟩
          else d) := by
    intro d
    rw [← e4]
    rcases hL : (c0 :: rest).find? isLocName with _ | cl
    · simp [pyFalsy]
    · have hne := find?_col_ne_nil col_preds_ne_nil.2.2.2 hL
      simp [pyFalsy, isEmpty_false_of_ne_nil hne]
  have hpn :
      (if pyFalsy (match (c0 :: rest).find? isPartNoName with
          | some c => some c
          | none => (c0 :: rest).find? isPartExactName) then
          (c0 :: rest).head?
        else
          (match (c0 :: rest).find? isPartNoName with
            | some c => some c
            | none => (c0 :: rest).find? isPartExactName)) =
      some (match ((c0 :: rest).filter isPartNoName).head? with
        | some c => c
        | none =>
          match ((c0 :: rest).filter isPartExactName).head? with
          | some c => c
          | none => c0) := by
    rw [← e1, ← e2]
    rcases hA : (c0 :: rest).find? isPartNoName with _ | ca
    · rcases hB : (c0 :: rest).find? isPartExactName with _ | cb
      · simp [pyFalsy]
      · have hne := find?_col_ne_nil col_preds_ne_nil.2.1 hB
        simp [pyFalsy, isEmpty_false_of_ne_nil hne]
    · have hne := find?_col_ne_nil col_preds_ne_nil.1 hA
      simp [pyFalsy, isEmpty_false_of_ne_nil hne]
  constructor
  · simp only [resolveColumns, hpn, Option.isSome_some]
  · simp only [resolveColumns, resolveColumnsSpec, hpn, hd, hl]

/-- Witness for C5: a single column named "A" resolves; all three
resolved columns coincide and no error occurs. -/
theorem C5_column_resolver_total_and_spec_witness :
    (resolveColumns [['A']]).isSome = true ∧
    resolveColumns [['A']] = resolveColumnsSpec [['A']] :=
  C5_column_resolver_total_and_spec [['A']] (by simp)

/-- C7 counterexample: five eligible groups all failing in the block
construction leave `elements = [PageBreak]` — non-empty with zero
blocks, because the 5th group appended its page break (line 212) before
raising — so `if elements:` is true and the run returns a blockless
document, not `None`. -/
theorem C7_blockless_document_on_failures :
    runGenerator (List.replicate 5 (Except.error [ 'e' ] : Except Str Nat)) =
      some [PElem.brk] ∧
    (List.replicate 5
      (Except.error [ 'e' ] : Except Str Nat)).filterMap Except.toOption =
      [] ∧
    runGenerator (List.replicate 5 (Except.error [ 'e' ] : Except Str Nat)) ≠
      none := by
  decide

/-- C7 amended: a failing group contributes no block and exactly one
diagnostic while processing continues with the next group (the blocks
are exactly the successes, in order, so a single bad group never aborts
the run); the generator returns an absent result exactly when the
`elements` list is empty — equivalently, when no group yielded a block
AND fewer than 5 eligible groups were processed, since the 5th
processed group appends a page break even if its construction then
fails. -/
theorem C7_per_group_errors_skipped {ε β : Type}
    (outcomes : List (Except ε β)) :
    (genLoop 0 outcomes).1.filterMap blkOf =
      outcomes.filterMap Except.toOption ∧
    (genLoop 0 outcomes).2 = outcomes.filterMap errOf ∧
    (runGenerator outcomes = none ↔ (genLoop 0 outcomes).1 = []) ∧
    ((genLoop 0 outcomes).1 = [] ↔
      outcomes.filterMap Except.toOption = [] ∧ outcomes.length < 5) := by
  have hempty : (genLoop 0 outcomes).1.isEmpty = true ↔
      (genLoop 0 outcomes).1 = [] := by
    cases (genLoop 0 outcomes).1 <;> simp
  refine ⟨genLoop_blocks outcomes 0, genLoop_diags outcomes 0, ?_, ?_⟩
  · constructor
    · intro hnone
      by_cases hb : (genLoop 0 outcomes).1.isEmpty
      · exact hempty.mp hb
      · rw [runGenerator, if_neg hb] at hnone
        exact absurd hnone (by simp)
    · intro hnil
      rw [runGenerator, if_pos (hempty.mpr hnil)]
  · constructor
    · intro hnil
      constructor
      · rw [← genLoop_blocks outcomes 0, hnil]
        rfl
      · by_contra h5
        push_neg at h5
        exact genLoop_ne_nil_of_five outcomes h5 hnil
    · rintro ⟨hok, h5⟩
      exact genLoop_nil_of_short outcomes 0 hok (by omega)

/-- C9 counterexample: on a concrete block (all-empty fields), the
background colors of location cells 1 and 5 differ (salmon vs
light-blue), so "positions 1 and 5 share a color" fails on the code. -/
theorem C9_cells_one_five_differ :
    ((buildLocationStrip (List.replicate 7 [])).2.getD 0 (0, [])).2 ≠
      ((buildLocationStrip (List.replicate 7 [])).2.getD 4 (0, [])).2 := by
  decide

/-- C9 amended: for every field vector the strip's 7 cells get the fixed
palette (salmon, light-blue, light-green, gold, light-blue, salmon,
light-green) regardless of content, with positions 2/5, 1/6 and 3/7
sharing colors. -/
theorem C9_palette_fixed (fields : List Str) :
    (buildLocationStrip fields).1 = "Part Location".data :: fields ∧
    (buildLocationStrip fields).2 =
      [(1, "#E9967A".data), (2, "#ADD8E6".data), (3, "#90EE90".data),
       (4, "#FFD700".data), (5, "#ADD8E6".data), (6, "#E9967A".data),
       (7, "#90EE90".data)] ∧
    locationColors.getD 1 [] = locationColors.getD 4 [] ∧
    locationColors.getD 0 [] = locationColors.getD 5 [] ∧
    locationColors.getD 2 [] = locationColors.getD 6 [] :=
  ⟨rfl, rfl, by decide, by decide, by decide⟩

lemma strLt_irrefl : ∀ a : Str, strLt a a = false := by
  intro a
  induction a with
  | nil => rfl
  | cons c cs ih => simp [strLt, ih]

lemma strLt_trans :
    ∀ a b c : Str, strLt a b = true → strLt b c = true → strLt a c = true := by
  intro a
  induction a with
  | nil =>
    intro b c hab hbc
    cases b with
    | nil => exact absurd hab (by simp [strLt])
    | cons b1 bs =>
      cases c with
      | nil => exact absurd hbc (by simp [strLt])
      | cons c1 cs => rfl
  | cons a1 as ih =>
    intro b c hab hbc
    cases b with
    | nil => exact absurd hab (by simp [strLt])
    | cons b1 bs =>
      cases c with
      | nil => exact absurd hbc (by simp [strLt])
      | cons c1 cs =>
        simp only [strLt] at hab hbc ⊢
        by_cases h1 : a1 < b1
        · by_cases h2 : b1 < c1
          · simp [lt_trans h1 h2]
          · by_cases h3 : c1 < b1
            · simp [h2, h3] at hbc
            · have : b1 = c1 := le_antisymm (not_lt.mp h3) (not_lt.mp h2)
              subst this
              simp [h1]
        · by_cases h4 : b1 < a1
          · simp [h1, h4] at hab
          · have hba : a1 = b1 := le_antisymm (not_lt.mp h4) (not_lt.mp h1)
            subst hba
            simp only [h1, if_neg h1, if_neg h4] at hab
            by_cases h2 : a1 < c1
            · simp [h2]
            · by_cases h3 : c1 < a1
              · simp [h2, h3] at hbc
              · simp only [if_neg h2, if_neg h3] at hbc ⊢
                exact ih bs cs hab hbc

lemma strLt_trichotomy :
    ∀ a b : Str, strLt a b = true ∨ strLt b a = true ∨ a = b := by
  intro a
  induction a with
  | nil =>
    intro b
    cases b with
    | nil => exact Or.inr (Or.inr rfl)
    | cons b1 bs => exact Or.inl rfl
  | cons a1 as ih =>
    intro b
    cases b with
    | nil => exact Or.inr (Or.inl rfl)
    | cons b1 bs =>
      by_cases h1 : a1 < b1
      · exact Or.inl (by simp [strLt, h1])
      · by_cases h2 : b1 < a1
        · exact Or.inr (Or.inl (by simp [strLt, h2]))
        · have : a1 = b1 := le_antisymm (not_lt.mp h2) (not_lt.mp h1)
          subst this
          rcases ih bs with h | h | h
          · exact Or.inl (by simp [strLt, h])
          · exact Or.inr (Or.inl (by simp [strLt, h]))
          · exact Or.inr (Or.inr (by rw [h]))

lemma strLt_asymm {a b : Str} (h1 : strLt a b = true) (h2 : strLt b a = true) :
    False := by
  have := strLt_trans a b a h1 h2
  rw [strLt_irrefl a] at this
  exact Bool.false_ne_true this

lemma strLe_total (a b : Str) : strLe a b = true ∨ strLe b a = true := by
  rw [strLe, strLe, Bool.not_eq_true', Bool.not_eq_true']
  by_cases h1 : strLt b a = true
  · right
    by_cases h2 : strLt a b = true
    · exact absurd (And.intro h1 h2) (fun h => strLt_asymm h.1 h.2)
    · exact Bool.not_eq_true _ ▸ Bool.of_not_eq_true h2
  · left
    exact Bool.of_not_eq_true h1

lemma strLe_trans {a b c : Str} (h1 : strLe a b = true)
    (h2 : strLe b c = true) : strLe a c = true := by
  rw [strLe, Bool.not_eq_true'] at h1 h2 ⊢
  by_cases hca : strLt c a = true
  · exfalso
    rcases strLt_trichotomy a b with h | h | h
    · have := strLt_trans c a b hca h
      rw [h2] at this
      exact Bool.false_ne_true this
    · rw [h1] at h
      exact Bool.false_ne_true h
    · subst h
      rw [h2] at hca
      exact Bool.false_ne_true hca
  · exact Bool.of_not_eq_true hca

lemma mem_insertSorted (k x : Str) :
    ∀ l : List Str, x ∈ insertSorted k l ↔ x = k ∨ x ∈ l := by
  intro l
  induction l with
  | nil => simp [insertSorted]
  | cons y ys ih =>
    by_cases h : strLe k y = true
    · simp [insertSorted, h]
    · simp only [insertSorted, if_neg h, List.mem_cons, ih]
      tauto

lemma pairwise_insertSorted (k : Str) :
    ∀ l : List Str, l.Pairwise (fun a b => strLe a b = true) →
      (insertSorted k l).Pairwise (fun a b => strLe a b = true) := by
  intro l
  induction l with
  | nil => intro _; simp [insertSorted]
  | cons x xs ih =>
    intro hp
    rw [List.pairwise_cons] at hp
    by_cases h : strLe k x = true
    · rw [insertSorted, if_pos h, List.pairwise_cons]
      refine ⟨fun y hy => ?_, List.pairwise_cons.mpr hp⟩
      rcases List.mem_cons.mp hy with rfl | hy
      · exact h
      · exact strLe_trans h (hp.1 y hy)
    · rw [insertSorted, if_neg h, List.pairwise_cons]
      refine ⟨fun y hy => ?_, ih hp.2⟩
      rcases (mem_insertSorted k y xs).mp hy with hyk | hy
      · cases hyk
        rcases strLe_total k x with hk | hk
        · exact absurd hk h
        · exact hk
      · exact hp.1 y hy

lemma pairwise_sortKeys :
    ∀ l : List Str, (sortKeys l).Pairwise (fun a b => strLe a b = true) := by
  intro l
  induction l with
  | nil => simp [sortKeys]
  | cons k ks ih => exact pairwise_insertSorted k (sortKeys ks) ih

lemma perm_insertSorted (k : Str) :
    ∀ l : List Str, (insertSorted k l).Perm (k :: l) := by
  intro l
  induction l with
  | nil => simp [insertSorted]
  | cons x xs ih =>
    by_cases h : strLe k x = true
    · rw [insertSorted, if_pos h]
    · rw [insertSorted, if_neg h]
      exact (ih.cons x).trans (List.Perm.swap k x xs)

lemma perm_sortKeys : ∀ l : List Str, (sortKeys l).Perm l := by
  intro l
  induction l with
  | nil => simp [sortKeys]
  | cons k ks ih => exact (perm_insertSorted k (sortKeys ks)).trans (ih.cons k)

lemma firstKeysAux_spec :
    ∀ (l seen : List Str),
      (∀ x, x ∈ firstKeysAux seen l ↔ (x ∈ l ∧ x ∉ seen)) ∧
      (firstKeysAux seen l).Nodup := by
  intro l
  induction l with
  | nil => intro seen; simp [firstKeysAux]
  | cons k ks ih =>
    intro seen
    by_cases h : k ∈ seen
    · rw [firstKeysAux, if_pos h]
      refine ⟨fun x => ?_, (ih seen).2⟩
      rw [(ih seen).1 x, List.mem_cons]
      constructor
      · exact fun hx => ⟨Or.inr hx.1, hx.2⟩
      · rintro ⟨rfl | hx, hns⟩
        · exact absurd h hns
        · exact ⟨hx, hns⟩
    · rw [firstKeysAux, if_neg h]
      have ihk := ih (k :: seen)
      refine ⟨fun x => ?_, ?_⟩
      · rw [List.mem_cons, ihk.1 x, List.mem_cons, List.mem_cons]
        constructor
        · rintro (rfl | ⟨hx, hnk⟩)
          · exact ⟨Or.inl rfl, h⟩
          · exact ⟨Or.inr hx, fun hs => hnk (Or.inr hs)⟩
        · rintro ⟨rfl | hx, hns⟩
          · exact Or.inl rfl
          · by_cases hxk : x = k
            · exact Or.inl hxk
            · exact Or.inr ⟨hx, fun hmem => by
                rcases hmem with h1 | h1
                · exact hxk h1
                · exact hns h1⟩
      · rw [List.nodup_cons]
        refine ⟨fun hmem => ?_, ihk.2⟩
        exact ((ihk.1 k).mp hmem).2 (List.mem_cons_self k seen)

/-- C8 counterexample: two rows whose locations first appear in the
order "B", "A" are iterated by the code in sorted order ["A", "B"], not
first-appearance order ["B", "A"]. -/
theorem C8_iteration_not_first_appearance :
    (groupByLoc (fun r : Str => r) [['B'], ['A']]).map Prod.fst ≠
      firstAppearanceKeys (fun r : Str => r) [['B'], ['A']] := by
  decide

/-- C8 amended: groups are keyed by exact raw string equality (each
group is the rows whose location equals the key, in original order, and
there is exactly one group per distinct raw value), but iteration order
is ascending in the key order, as pandas `groupby(sort=True)` iterates —
not first-appearance order. -/
theorem C8_grouping_exact_and_sorted {ρ : Type} (loc : ρ → Str)
    (rows : List ρ) :
    ((groupByLoc loc rows).map Prod.fst).Pairwise
      (fun a b => strLe a b = true) ∧
    ((groupByLoc loc rows).map Prod.fst).Nodup ∧
    (∀ k, k ∈ (groupByLoc loc rows).map Prod.fst ↔ k ∈ rows.map loc) ∧
    ∀ p ∈ groupByLoc loc rows,
      p.2 = rows.filter fun r => decide (loc r = p.1) := by
  have hfst : (groupByLoc loc rows).map Prod.fst =
      sortKeys (firstKeysAux [] (rows.map loc)) := by
    simp [groupByLoc, List.map_map, Function.comp_def]
  refine ⟨?_, ?_, ?_, ?_⟩
  · rw [hfst]; exact pairwise_sortKeys _
  · rw [hfst]
    exact ((perm_sortKeys _).nodup_iff).mpr (firstKeysAux_spec (rows.map loc) []).2
  · intro k
    rw [hfst, (perm_sortKeys _).mem_iff,
      (firstKeysAux_spec (rows.map loc) []).1 k]
    simp
  · intro p hp
    rw [groupByLoc] at hp
    rcases List.mem_map.mp hp with ⟨k, _, rfl⟩
    rfl

/-- Witness for the amended C8 at a concrete record set: the group of
key "A" is exactly the rows whose location equals "A". -/
theorem C8_grouping_exact_and_sorted_witness :
    ((([ 'A' ], [[ 'A' ]]) : Str × List Str)).2 =
      List.filter (fun r => decide (r = ([ 'A' ] : Str))) [[ 'B' ], [ 'A' ]] :=
  (C8_grouping_exact_and_sorted (fun r : Str => r) [[ 'B' ], [ 'A' ]]).2.2.2
    ((([ 'A' ] : Str), ([[ 'A' ]] : List Str))) (by decide)

/-- C10: after either generator returns, the caller's DataFrame carries
upper-cased column names (rows untouched); on a concrete frame with
lower-case column names the input is therefore not left unchanged. -/
theorem C10_caller_dataframe_mutated :
    (∀ (raises : Str × List (List Str) → Option Str) (df : DataFrame),
      (generate_labels_from_excel_v1 raises df).2 =
        { df with columns := df.columns.map strUpper } ∧
      (generate_labels_from_excel_v2 raises df).2 =
        { df with columns := df.columns.map strUpper }) ∧
    (generate_labels_from_excel_v1 (fun _ => none) sampleDf).2 ≠ sampleDf ∧
    (generate_labels_from_excel_v2 (fun _ => none) sampleDf).2 ≠ sampleDf := by
  refine ⟨fun raises df => ⟨?_, ?_⟩, by decide, by decide⟩
  · rcases h : resolveColumns (df.columns.map strUpper) with _ | ⟨pn, d, l⟩ <;>
      simp [generate_labels_from_excel_v1, h]
  · rcases h : resolveColumns (df.columns.map strUpper) with _ | ⟨pn, d, l⟩ <;>
      simp [generate_labels_from_excel_v2, h]

end PartsLabel
